import Mathlib

/-!
Verification of the ant-buffer primitives: a shallow embedding of the
`ByteBuffer` (cursor-based byte reader/writer with endianness helpers),
`MessageBuffer` (2-byte-header framed message codec) and `RingBuffer`
(fixed-capacity FIFO queue) classes, together with proofs of the
specified properties.

Modelling conventions:
* the backing `uint8_t` array is a `List Nat`; the declared capacity is
  the list length (the caller contract requires the declared capacity to
  match the real array size);
* `size_t` cursors are `Nat`; the one place where `size_t` subtraction
  can wrap (`finalizeMessage`) is modelled with an explicit `% 2^64`;
* a `uint8_t` store through a cast is modelled by `% 256`;
* a fallible mutating call `bool f(...)` becomes a pure function
  returning `Bool × State` (failure returns the unchanged state), and a
  fallible read with an out-parameter becomes `Option (value × State)`.
-/

namespace AntBuffer

/-- Two to the 8: the number of `uint8_t` values. -/
def byteMod : Nat := 256

/-! ### ByteBuffer -/

/-- State of a `ByteBuffer`: the borrowed byte array (`data_`), the write
cursor (`head_` / `write_pos_`) and the read cursor (`tail_` / `read_pos_`).
The declared capacity (`capacity_`) is the length of `data`. -/
structure ByteBuffer where
  data : List Nat
  head : Nat
  tail : Nat
  deriving Repr, DecidableEq

namespace ByteBuffer

/-- `capacity()`: total size of the array in bytes. -/
def capacity (b : ByteBuffer) : Nat := b.data.length

/-- `writePosition()`: the current write index. -/
def writePosition (b : ByteBuffer) : Nat := b.head

/-- `readPosition()`: the current read index. -/
def readPosition (b : ByteBuffer) : Nat := b.tail

/-- `writeRemaining()`: `(head_ < capacity_) ? (capacity_ - head_) : 0`. -/
def writeRemaining (b : ByteBuffer) : Nat :=
  if b.head < b.capacity then b.capacity - b.head else 0

/-- `readRemaining()`: `(tail_ < head_) ? (head_ - tail_) : 0`. -/
def readRemaining (b : ByteBuffer) : Nat :=
  if b.tail < b.head then b.head - b.tail else 0

/-- `resetWrite()`: `head_ = 0`. -/
def resetWrite (b : ByteBuffer) : ByteBuffer := { b with head := 0 }

/-- `resetRead()`: `tail_ = 0`. -/
def resetRead (b : ByteBuffer) : ByteBuffer := { b with tail := 0 }

/-- `data_[i]` as an rvalue. -/
def byteAt (b : ByteBuffer) (i : Nat) : Nat := b.data.getD i 0

/-- `readUInt8`. -/
def readUInt8 (b : ByteBuffer) : Option (Nat × ByteBuffer) :=
  if b.readRemaining < 1 then none
  else some (b.byteAt b.tail, { b with tail := b.tail + 1 })

/-- `writeUInt8`: the parameter is a `uint8_t`, so the stored byte is
`v % 256`. -/
def writeUInt8 (b : ByteBuffer) (v : Nat) : Bool × ByteBuffer :=
  if b.writeRemaining < 1 then (false, b)
  else (true, { b with data := b.data.set b.head (v % byteMod), head := b.head + 1 })

/-- `readUInt16LE`: `data_[tail_] | (data_[tail_+1] << 8)`. -/
def readUInt16LE (b : ByteBuffer) : Option (Nat × ByteBuffer) :=
  if b.readRemaining < 2 then none
  else some (b.byteAt b.tail ||| (b.byteAt (b.tail + 1) <<< 8),
             { b with tail := b.tail + 2 })

/-- `readUInt16BE`: `(data_[tail_] << 8) | data_[tail_+1]`. -/
def readUInt16BE (b : ByteBuffer) : Option (Nat × ByteBuffer) :=
  if b.readRemaining < 2 then none
  else some ((b.byteAt b.tail <<< 8) ||| b.byteAt (b.tail + 1),
             { b with tail := b.tail + 2 })

/-- `writeUInt16LE`: stores `uint8_t(v & 0xFF)` then `uint8_t((v >> 8) & 0xFF)`. -/
def writeUInt16LE (b : ByteBuffer) (v : Nat) : Bool × ByteBuffer :=
  if b.writeRemaining < 2 then (false, b)
  else (true, { b with
    data := (b.data.set b.head (v % byteMod)).set (b.head + 1) ((v >>> 8) % byteMod),
    head := b.head + 2 })

/-- `writeUInt16BE`: stores `uint8_t((v >> 8) & 0xFF)` then `uint8_t(v & 0xFF)`. -/
def writeUInt16BE (b : ByteBuffer) (v : Nat) : Bool × ByteBuffer :=
  if b.writeRemaining < 2 then (false, b)
  else (true, { b with
    data := (b.data.set b.head ((v >>> 8) % byteMod)).set (b.head + 1) (v % byteMod),
    head := b.head + 2 })

/-- `readUInt32LE`. -/
def readUInt32LE (b : ByteBuffer) : Option (Nat × ByteBuffer) :=
  if b.readRemaining < 4 then none
  else some (b.byteAt b.tail ||| (b.byteAt (b.tail + 1) <<< 8)
               ||| (b.byteAt (b.tail + 2) <<< 16) ||| (b.byteAt (b.tail + 3) <<< 24),
             { b with tail := b.tail + 4 })

/-- `readUInt32BE`. -/
def readUInt32BE (b : ByteBuffer) : Option (Nat × ByteBuffer) :=
  if b.readRemaining < 4 then none
  else some ((b.byteAt b.tail <<< 24) ||| (b.byteAt (b.tail + 1) <<< 16)
               ||| (b.byteAt (b.tail + 2) <<< 8) ||| b.byteAt (b.tail + 3),
             { b with tail := b.tail + 4 })

/-- `writeUInt32LE`. -/
def writeUInt32LE (b : ByteBuffer) (v : Nat) : Bool × ByteBuffer :=
  if b.writeRemaining < 4 then (false, b)
  else (true, { b with
    data := ((((b.data.set b.head (v % byteMod)).set
      (b.head + 1) ((v >>> 8) % byteMod)).set
      (b.head + 2) ((v >>> 16) % byteMod)).set
      (b.head + 3) ((v >>> 24) % byteMod)),
    head := b.head + 4 })

/-- `writeUInt32BE`. -/
def writeUInt32BE (b : ByteBuffer) (v : Nat) : Bool × ByteBuffer :=
  if b.writeRemaining < 4 then (false, b)
  else (true, { b with
    data := ((((b.data.set b.head ((v >>> 24) % byteMod)).set
      (b.head + 1) ((v >>> 16) % byteMod)).set
      (b.head + 2) ((v >>> 8) % byteMod)).set
      (b.head + 3) (v % byteMod)),
    head := b.head + 4 })

end ByteBuffer

/-- The public operations of `ByteBuffer`, for statements quantifying over
call sequences. Write operations carry the value passed by the caller. -/
inductive BBOp where
  | opResetWrite
  | opResetRead
  | opReadU8
  | opReadU16LE
  | opReadU16BE
  | opReadU32LE
  | opReadU32BE
  | opWriteU8 (v : Nat)
  | opWriteU16LE (v : Nat)
  | opWriteU16BE (v : Nat)
  | opWriteU32LE (v : Nat)
  | opWriteU32BE (v : Nat)
  deriving Repr, DecidableEq

/-- Effect of one public call on the buffer state (a failed call leaves the
state unchanged, exactly as the C++ methods do). -/
def BBOp.step (o : BBOp) (b : ByteBuffer) : ByteBuffer :=
  match o with
  | opResetWrite => b.resetWrite
  | opResetRead => b.resetRead
  | opReadU8 => match b.readUInt8 with | none => b | some p => p.2
  | opReadU16LE => match b.readUInt16LE with | none => b | some p => p.2
  | opReadU16BE => match b.readUInt16BE with | none => b | some p => p.2
  | opReadU32LE => match b.readUInt32LE with | none => b | some p => p.2
  | opReadU32BE => match b.readUInt32BE with | none => b | some p => p.2
  | opWriteU8 v => (b.writeUInt8 v).2
  | opWriteU16LE v => (b.writeUInt16LE v).2
  | opWriteU16BE v => (b.writeUInt16BE v).2
  | opWriteU32LE v => (b.writeUInt32LE v).2
  | opWriteU32BE v => (b.writeUInt32BE v).2

/-- Run a sequence of public calls from a given state. -/
def runOps (b : ByteBuffer) (ops : List BBOp) : ByteBuffer :=
  ops.foldl (fun s o => o.step s) b

/-- A freshly constructed `ByteBuffer` over an array with the given
contents: both cursors start at 0. -/
def ByteBuffer.mkFresh (data : List Nat) : ByteBuffer := ⟨data, 0, 0⟩

/-! ### MessageBuffer -/

/-- `headerSize_`: bytes reserved for the `[type][length]` header. -/
def headerSize : Nat := 2

/-- Width of `size_t` on the target platform. -/
def sizeTMod : Nat := 2 ^ 64

/-- State of a `MessageBuffer`: the borrowed byte array (`data_`), the
write/read cursor `head_` and the payload read cursor `tail_`. The declared
capacity (`capacity_`) is the length of `data`. -/
structure MessageBuffer where
  data : List Nat
  head : Nat
  tail : Nat
  deriving Repr, DecidableEq

namespace MessageBuffer

/-- `capacity_`. -/
def capacity (m : MessageBuffer) : Nat := m.data.length

/-- `data_[i]` as an rvalue. -/
def byteAt (m : MessageBuffer) (i : Nat) : Nat := m.data.getD i 0

/-- `beginMessage(type)`: reserve the header, store the type byte and a
zero length placeholder. -/
def beginMessage (m : MessageBuffer) (type : Nat) : Bool × MessageBuffer :=
  if m.capacity < headerSize then (false, m)
  else (true, { m with
    data := (m.data.set 0 (type % byteMod)).set 1 0,
    head := headerSize,
    tail := 0 })

/-- `writeByte(v)`: append one payload byte at the write cursor. -/
def writeByte (m : MessageBuffer) (v : Nat) : Bool × MessageBuffer :=
  if m.head ≥ m.capacity then (false, m)
  else (true, { m with data := m.data.set m.head (v % byteMod), head := m.head + 1 })

/-- `finalizeMessage()`: `size_t payloadLength = head_ - headerSize_`
(wrapping `size_t` subtraction), clamp to 255, store into header byte 1. -/
def finalizeMessage (m : MessageBuffer) : MessageBuffer :=
  let payloadLength := (m.head + (sizeTMod - headerSize)) % sizeTMod
  let clamped := if payloadLength > 255 then 255 else payloadLength
  { m with data := m.data.set 1 (clamped % byteMod) }

/-- `size()`: header plus payload byte count of the current message. -/
def size (m : MessageBuffer) : Nat := m.head

/-- `beginRead(size)`: validate the received size, place the cursors. -/
def beginRead (m : MessageBuffer) (sz : Nat) : Bool × MessageBuffer :=
  if sz < headerSize ∨ sz > m.capacity then (false, m)
  else (true, { m with head := sz, tail := headerSize })

/-- `messageType()`: header byte 0. -/
def messageType (m : MessageBuffer) : Nat := m.byteAt 0

/-- `payloadLength()`: header byte 1. -/
def payloadLength (m : MessageBuffer) : Nat := m.byteAt 1

/-- `readByte(out)`: read one byte at the payload cursor while it is below
the received end. -/
def readByte (m : MessageBuffer) : Option (Nat × MessageBuffer) :=
  if m.tail ≥ m.head then none
  else some (m.byteAt m.tail, { m with tail := m.tail + 1 })

/-- `readRemaining()`: payload bytes left according to the declared header
length: `(tail_ < payloadEnd) ? (payloadEnd - tail_) : 0` with
`payloadEnd = headerSize_ + payloadLength()`. -/
def readRemaining (m : MessageBuffer) : Nat :=
  let payloadEnd := headerSize + m.payloadLength
  if m.tail < payloadEnd then payloadEnd - m.tail else 0

/-- Run `n` successive `readByte` calls, a failed call leaving the state
unchanged. -/
def readByteN (m : MessageBuffer) : Nat → MessageBuffer
  | 0 => m
  | n + 1 => match (readByteN m n).readByte with
    | none => readByteN m n
    | some p => p.2

/-- Run `n` successive `writeByte` calls with the given value. -/
def writeByteN (m : MessageBuffer) (v : Nat) : Nat → MessageBuffer
  | 0 => m
  | n + 1 => ((writeByteN m v n).writeByte v).2

end MessageBuffer

/-! ### RingBuffer -/

/-- State of a `RingBuffer<T, N>`: the inline storage array `buf_` (length
`N` in any state the default constructor can reach), the next push slot
`head_`, the next pop slot `tail_` and the live element count `count_`. -/
structure RingBuffer (α : Type) (N : Nat) where
  buf : List α
  head : Nat
  tail : Nat
  count : Nat

namespace RingBuffer

/-- `push(v)`: insert at the head slot, advance head modulo `N`, increment
the count; fail without mutation when full. -/
def push {α : Type} {N : Nat} (r : RingBuffer α N) (v : α) : Bool × RingBuffer α N :=
  if r.count = N then (false, r)
  else (true, { buf := r.buf.set r.head v,
                head := (r.head + 1) % N,
                tail := r.tail,
                count := r.count + 1 })

/-- `pop(out)`: move the tail slot out, advance tail modulo `N`, decrement
the count; fail without mutation when empty. -/
def pop {α : Type} {N : Nat} [Inhabited α] (r : RingBuffer α N) :
    Option (α × RingBuffer α N) :=
  if r.count = 0 then none
  else some (r.buf.getD r.tail default,
             { r with tail := (r.tail + 1) % N, count := r.count - 1 })

/-- `size()`. -/
def size {α : Type} {N : Nat} (r : RingBuffer α N) : Nat := r.count

/-- `empty()`. -/
def isEmpty {α : Type} {N : Nat} (r : RingBuffer α N) : Bool := r.count = 0

/-- `full()`. -/
def isFull {α : Type} {N : Nat} (r : RingBuffer α N) : Bool := r.count = N

/-- The abstract FIFO content: the `count` live elements from the tail slot
onward, oldest first. -/
def toList {α : Type} {N : Nat} [Inhabited α] (r : RingBuffer α N) : List α :=
  (List.range r.count).map (fun i => r.buf.getD ((r.tail + i) % N) default)

/-- Harness for call-sequence statements: the value delivered by a `pop`,
if any. -/
def popV {α : Type} {N : Nat} [Inhabited α] (r : RingBuffer α N) : Option α :=
  r.pop.map Prod.fst

/-- Harness for call-sequence statements: the state after a `pop` (a failed
`pop` leaves the buffer unchanged, exactly as the C++ method does). -/
def popS {α : Type} {N : Nat} [Inhabited α] (r : RingBuffer α N) : RingBuffer α N :=
  (r.pop.map Prod.snd).getD r

/-- Structural well-formedness maintained by the implementation: storage of
length `N`, count within capacity, tail a valid slot, and head the slot
`count` places after tail. -/
def WF {α : Type} {N : Nat} (r : RingBuffer α N) : Prop :=
  r.buf.length = N ∧ r.count ≤ N ∧ r.tail < N ∧ r.head = (r.tail + r.count) % N

end RingBuffer


end AntBuffer

namespace AntBuffer

/-- C8 helper: `resetRead` only changes the read cursor. -/
theorem resetRead_readRemaining (b : ByteBuffer) :
    b.resetRead.readRemaining = b.writePosition := by
  simp only [ByteBuffer.resetRead, ByteBuffer.readRemaining, ByteBuffer.writePosition]
  split <;> omega

/-- Reading a just-set cell. -/
theorem getD_set_self (l : List Nat) (i a : Nat) (h : i < l.length) :
    (l.set i a).getD i 0 = a := by
  simp [List.getD_eq_getElem?_getD, List.getElem?_set_self (by simpa using h)]

/-- Reading a different cell after a set. -/
theorem getD_set_ne (l : List Nat) (i j a : Nat) (h : i ≠ j) :
    (l.set i a).getD j 0 = l.getD j 0 := by
  simp [List.getD_eq_getElem?_getD, List.getElem?_set_ne h]

/-- Sufficient write room bounds the write cursor inside the array. -/
theorem writeRemaining_bound (b : ByteBuffer) (w : Nat)
    (h : w ≤ b.writeRemaining) (hw : 0 < w) : b.head + w ≤ b.data.length := by
  unfold ByteBuffer.writeRemaining ByteBuffer.capacity at h
  split at h <;> omega

/-- C8: for every ByteBuffer state, immediately after `resetRead()`,
`readRemaining() == writePosition()`; and immediately after `resetWrite()`,
`writeRemaining() == capacity()` and `readRemaining() == 0`. -/
theorem C8_reset_semantics (b : ByteBuffer) :
    b.resetRead.readRemaining = b.writePosition ∧
    b.resetWrite.writeRemaining = b.capacity ∧
    b.resetWrite.readRemaining = 0 := by
  refine ⟨resetRead_readRemaining b, ?_, ?_⟩ <;>
    simp only [ByteBuffer.resetWrite, ByteBuffer.writeRemaining,
      ByteBuffer.readRemaining, ByteBuffer.capacity] <;>
    split <;> omega

/-- C4: every 16- or 32-bit write variant is all-or-nothing: with
`writeRemaining() < width` it returns failure and leaves the whole state
(cursor and every byte) unchanged; with enough room it returns success,
stores all `width` bytes of the encoding and advances `writePosition()` by
exactly `width`. -/
theorem C4_all_or_nothing_writes (b : ByteBuffer) (v : Nat) :
    (b.writeRemaining < 2 → b.writeUInt16LE v = (false, b)) ∧
    (b.writeRemaining < 2 → b.writeUInt16BE v = (false, b)) ∧
    (b.writeRemaining < 4 → b.writeUInt32LE v = (false, b)) ∧
    (b.writeRemaining < 4 → b.writeUInt32BE v = (false, b)) ∧
    (2 ≤ b.writeRemaining →
      (b.writeUInt16LE v).1 = true ∧
      (b.writeUInt16LE v).2.writePosition = b.writePosition + 2 ∧
      (b.writeUInt16LE v).2.byteAt b.head = v % 256 ∧
      (b.writeUInt16LE v).2.byteAt (b.head + 1) = (v >>> 8) % 256) ∧
    (2 ≤ b.writeRemaining →
      (b.writeUInt16BE v).1 = true ∧
      (b.writeUInt16BE v).2.writePosition = b.writePosition + 2 ∧
      (b.writeUInt16BE v).2.byteAt b.head = (v >>> 8) % 256 ∧
      (b.writeUInt16BE v).2.byteAt (b.head + 1) = v % 256) ∧
    (4 ≤ b.writeRemaining →
      (b.writeUInt32LE v).1 = true ∧
      (b.writeUInt32LE v).2.writePosition = b.writePosition + 4 ∧
      (b.writeUInt32LE v).2.byteAt b.head = v % 256 ∧
      (b.writeUInt32LE v).2.byteAt (b.head + 1) = (v >>> 8) % 256 ∧
      (b.writeUInt32LE v).2.byteAt (b.head + 2) = (v >>> 16) % 256 ∧
      (b.writeUInt32LE v).2.byteAt (b.head + 3) = (v >>> 24) % 256) ∧
    (4 ≤ b.writeRemaining →
      (b.writeUInt32BE v).1 = true ∧
      (b.writeUInt32BE v).2.writePosition = b.writePosition + 4 ∧
      (b.writeUInt32BE v).2.byteAt b.head = (v >>> 24) % 256 ∧
      (b.writeUInt32BE v).2.byteAt (b.head + 1) = (v >>> 16) % 256 ∧
      (b.writeUInt32BE v).2.byteAt (b.head + 2) = (v >>> 8) % 256 ∧
      (b.writeUInt32BE v).2.byteAt (b.head + 3) = v % 256) := by
  refine ⟨?_, ?_, ?_, ?_, ?_, ?_, ?_, ?_⟩
  · intro h
    simp only [ByteBuffer.writeUInt16LE, if_pos h]
  · intro h
    simp only [ByteBuffer.writeUInt16BE, if_pos h]
  · intro h
    simp only [ByteBuffer.writeUInt32LE, if_pos h]
  · intro h
    simp only [ByteBuffer.writeUInt32BE, if_pos h]
  · intro h
    have hb := writeRemaining_bound b 2 h (by omega)
    have hg : ¬ b.writeRemaining < 2 := by omega
    simp only [ByteBuffer.writeUInt16LE, if_neg hg, ByteBuffer.writePosition,
      ByteBuffer.byteAt, byteMod]
    refine ⟨trivial, trivial, ?_, ?_⟩
    · rw [getD_set_ne _ _ _ _ (by omega)]
      exact getD_set_self _ _ _ (by omega)
    · exact getD_set_self _ _ _ (by simp; omega)
  · intro h
    have hb := writeRemaining_bound b 2 h (by omega)
    have hg : ¬ b.writeRemaining < 2 := by omega
    simp only [ByteBuffer.writeUInt16BE, if_neg hg, ByteBuffer.writePosition,
      ByteBuffer.byteAt, byteMod]
    refine ⟨trivial, trivial, ?_, ?_⟩
    · rw [getD_set_ne _ _ _ _ (by omega)]
      exact getD_set_self _ _ _ (by omega)
    · exact getD_set_self _ _ _ (by simp; omega)
  · intro h
    have hb := writeRemaining_bound b 4 h (by omega)
    have hg : ¬ b.writeRemaining < 4 := by omega
    simp only [ByteBuffer.writeUInt32LE, if_neg hg, ByteBuffer.writePosition,
      ByteBuffer.byteAt, byteMod]
    refine ⟨trivial, trivial, ?_, ?_, ?_, ?_⟩
    · rw [getD_set_ne _ _ _ _ (by omega), getD_set_ne _ _ _ _ (by omega),
        getD_set_ne _ _ _ _ (by omega)]
      exact getD_set_self _ _ _ (by omega)
    · rw [getD_set_ne _ _ _ _ (by omega), getD_set_ne _ _ _ _ (by omega)]
      exact getD_set_self _ _ _ (by simp; omega)
    · rw [getD_set_ne _ _ _ _ (by omega)]
      exact getD_set_self _ _ _ (by simp; omega)
    · exact getD_set_self _ _ _ (by simp; omega)
  · intro h
    have hb := writeRemaining_bound b 4 h (by omega)
    have hg : ¬ b.writeRemaining < 4 := by omega
    simp only [ByteBuffer.writeUInt32BE, if_neg hg, ByteBuffer.writePosition,
      ByteBuffer.byteAt, byteMod]
    refine ⟨trivial, trivial, ?_, ?_, ?_, ?_⟩
    · rw [getD_set_ne _ _ _ _ (by omega), getD_set_ne _ _ _ _ (by omega),
        getD_set_ne _ _ _ _ (by omega)]
      exact getD_set_self _ _ _ (by omega)
    · rw [getD_set_ne _ _ _ _ (by omega), getD_set_ne _ _ _ _ (by omega)]
      exact getD_set_self _ _ _ (by simp; omega)
    · rw [getD_set_ne _ _ _ _ (by omega)]
      exact getD_set_self _ _ _ (by simp; omega)
    · exact getD_set_self _ _ _ (by simp; omega)

/-- The write-room query in closed form: `Nat` truncated subtraction agrees
with the guarded C++ expression in both branches. -/
theorem writeRemaining_eq (b : ByteBuffer) :
    b.writeRemaining = b.data.length - b.head := by
  unfold ByteBuffer.writeRemaining ByteBuffer.capacity
  split <;> omega

/-- The read-room query in closed form. -/
theorem readRemaining_eq (b : ByteBuffer) : b.readRemaining = b.head - b.tail := by
  unfold ByteBuffer.readRemaining
  split <;> omega

/-- Bitwise or of a multiple of `2^k` with a value below `2^k` is addition. -/
theorem lor_eq_add_left (k c a : Nat) (hc : 2 ^ k ∣ c) (ha : a < 2 ^ k) :
    c ||| a = c + a := by
  obtain ⟨m, rfl⟩ := hc
  exact (Nat.mul_add_lt_is_or ha m).symm

/-- Symmetric form of `lor_eq_add_left`. -/
theorem lor_eq_add_right (k a c : Nat) (ha : a < 2 ^ k) (hc : 2 ^ k ∣ c) :
    a ||| c = a + c := by
  rw [Nat.lor_comm, lor_eq_add_left k c a hc ha, Nat.add_comm]

/-- The LE 16-bit decode expression inverts the LE 16-bit encode bytes. -/
theorem le16_decode (v : Nat) (hv : v < 2 ^ 16) :
    (v % 256) ||| (((v >>> 8) % 256) <<< 8) = v := by
  rw [Nat.shiftRight_eq_div_pow, Nat.shiftLeft_eq,
    lor_eq_add_right 8 _ _ (by omega) (dvd_mul_left _ _)]
  omega

/-- The BE 16-bit decode expression inverts the BE 16-bit encode bytes. -/
theorem be16_decode (v : Nat) (hv : v < 2 ^ 16) :
    ((((v >>> 8) % 256) <<< 8) ||| (v % 256)) = v := by
  rw [Nat.shiftRight_eq_div_pow, Nat.shiftLeft_eq,
    lor_eq_add_left 8 _ _ (dvd_mul_left _ _) (by omega)]
  omega

/-- The LE 32-bit decode expression inverts the LE 32-bit encode bytes. -/
theorem le32_decode (v : Nat) (hv : v < 2 ^ 32) :
    (v % 256) ||| (((v >>> 8) % 256) <<< 8) ||| (((v >>> 16) % 256) <<< 16)
      ||| (((v >>> 24) % 256) <<< 24) = v := by
  rw [Nat.shiftRight_eq_div_pow, Nat.shiftRight_eq_div_pow, Nat.shiftRight_eq_div_pow,
    Nat.shiftLeft_eq, Nat.shiftLeft_eq, Nat.shiftLeft_eq,
    lor_eq_add_right 8 _ _ (by omega) (dvd_mul_left _ _),
    lor_eq_add_right 16 _ _ (by omega) (dvd_mul_left _ _),
    lor_eq_add_right 24 _ _ (by omega) (dvd_mul_left _ _)]
  omega

/-- The BE 32-bit decode expression inverts the BE 32-bit encode bytes. -/
theorem be32_decode (v : Nat) (hv : v < 2 ^ 32) :
    (((v >>> 24) % 256) <<< 24) ||| (((v >>> 16) % 256) <<< 16)
      ||| (((v >>> 8) % 256) <<< 8) ||| (v % 256) = v := by
  rw [Nat.shiftRight_eq_div_pow, Nat.shiftRight_eq_div_pow, Nat.shiftRight_eq_div_pow,
    Nat.shiftLeft_eq, Nat.shiftLeft_eq, Nat.shiftLeft_eq,
    lor_eq_add_left 24 _ _ (dvd_mul_left _ _) (by omega),
    lor_eq_add_left 16 _ _
      (Dvd.dvd.add ((pow_dvd_pow 2 (by norm_num)).mul_left _) (dvd_mul_left _ _))
      (by omega),
    lor_eq_add_left 8 _ _
      (Dvd.dvd.add (Dvd.dvd.add ((pow_dvd_pow 2 (by norm_num)).mul_left _)
        ((pow_dvd_pow 2 (by norm_num)).mul_left _)) (dvd_mul_left _ _))
      (by omega)]
  omega

/-- Reading four cells after four writes into a long-enough list. -/
theorem getD_set4 (l : List Nat) (i x0 x1 x2 x3 : Nat) (h : i + 4 ≤ l.length) :
    ((((l.set i x0).set (i + 1) x1).set (i + 2) x2).set (i + 3) x3).getD i 0 = x0 ∧
    ((((l.set i x0).set (i + 1) x1).set (i + 2) x2).set (i + 3) x3).getD (i + 1) 0 = x1 ∧
    ((((l.set i x0).set (i + 1) x1).set (i + 2) x2).set (i + 3) x3).getD (i + 2) 0 = x2 ∧
    ((((l.set i x0).set (i + 1) x1).set (i + 2) x2).set (i + 3) x3).getD (i + 3) 0 = x3 := by
  refine ⟨?_, ?_, ?_, ?_⟩
  · rw [getD_set_ne _ _ _ _ (by omega), getD_set_ne _ _ _ _ (by omega),
      getD_set_ne _ _ _ _ (by omega)]
    exact getD_set_self _ _ _ (by omega)
  · rw [getD_set_ne _ _ _ _ (by omega), getD_set_ne _ _ _ _ (by omega)]
    exact getD_set_self _ _ _ (by simp; omega)
  · rw [getD_set_ne _ _ _ _ (by omega)]
    exact getD_set_self _ _ _ (by simp; omega)
  · exact getD_set_self _ _ _ (by simp; omega)

/-- Reading two cells after two writes into a long-enough list. -/
theorem getD_set2 (l : List Nat) (i x0 x1 : Nat) (h : i + 2 ≤ l.length) :
    ((l.set i x0).set (i + 1) x1).getD i 0 = x0 ∧
    ((l.set i x0).set (i + 1) x1).getD (i + 1) 0 = x1 := by
  constructor
  · rw [getD_set_ne _ _ _ _ (by omega)]
    exact getD_set_self _ _ _ (by omega)
  · exact getD_set_self _ _ _ (by simp; omega)

/-- `readUInt16LE` in explicit form when two bytes are available. -/
theorem readUInt16LE_eq (b : ByteBuffer) (h : b.tail + 2 ≤ b.head) :
    b.readUInt16LE = some (b.byteAt b.tail ||| (b.byteAt (b.tail + 1) <<< 8),
      { b with tail := b.tail + 2 }) := by
  unfold ByteBuffer.readUInt16LE
  rw [if_neg (by rw [readRemaining_eq]; omega)]

/-- `readUInt16BE` in explicit form when two bytes are available. -/
theorem readUInt16BE_eq (b : ByteBuffer) (h : b.tail + 2 ≤ b.head) :
    b.readUInt16BE = some ((b.byteAt b.tail <<< 8) ||| b.byteAt (b.tail + 1),
      { b with tail := b.tail + 2 }) := by
  unfold ByteBuffer.readUInt16BE
  rw [if_neg (by rw [readRemaining_eq]; omega)]

/-- `readUInt32LE` in explicit form when four bytes are available. -/
theorem readUInt32LE_eq (b : ByteBuffer) (h : b.tail + 4 ≤ b.head) :
    b.readUInt32LE = some (b.byteAt b.tail ||| (b.byteAt (b.tail + 1) <<< 8)
        ||| (b.byteAt (b.tail + 2) <<< 16) ||| (b.byteAt (b.tail + 3) <<< 24),
      { b with tail := b.tail + 4 }) := by
  unfold ByteBuffer.readUInt32LE
  rw [if_neg (by rw [readRemaining_eq]; omega)]

/-- `readUInt32BE` in explicit form when four bytes are available. -/
theorem readUInt32BE_eq (b : ByteBuffer) (h : b.tail + 4 ≤ b.head) :
    b.readUInt32BE = some ((b.byteAt b.tail <<< 24) ||| (b.byteAt (b.tail + 1) <<< 16)
        ||| (b.byteAt (b.tail + 2) <<< 8) ||| b.byteAt (b.tail + 3),
      { b with tail := b.tail + 4 }) := by
  unfold ByteBuffer.readUInt32BE
  rw [if_neg (by rw [readRemaining_eq]; omega)]

/-- C5: write-then-read round-trips for all four multi-byte variants, from
any state whose read cursor sits at the write cursor; plus the concrete
byte layouts: `0x11223344` written LE gives `[0x44, 0x33, 0x22, 0x11]` and
`0xDEADBEEF` written BE gives `[0xDE, 0xAD, 0xBE, 0xEF]`. -/
theorem C5_roundtrip (b : ByteBuffer) (v : Nat) (ht : b.tail = b.head) :
    (2 ≤ b.writeRemaining → v < 2 ^ 16 →
      ((b.writeUInt16LE v).2.readUInt16LE).map Prod.fst = some v ∧
      ((b.writeUInt16BE v).2.readUInt16BE).map Prod.fst = some v) ∧
    (4 ≤ b.writeRemaining → v < 2 ^ 32 →
      ((b.writeUInt32LE v).2.readUInt32LE).map Prod.fst = some v ∧
      ((b.writeUInt32BE v).2.readUInt32BE).map Prod.fst = some v) ∧
    ((ByteBuffer.mkFresh [0, 0, 0, 0]).writeUInt32LE 0x11223344).2.data =
      [0x44, 0x33, 0x22, 0x11] ∧
    ((ByteBuffer.mkFresh [0, 0, 0, 0]).writeUInt32BE 0xDEADBEEF).2.data =
      [0xDE, 0xAD, 0xBE, 0xEF] := by
  refine ⟨?_, ?_, by decide, by decide⟩
  · intro h hv
    have hb : b.head + 2 ≤ b.data.length := by
      have := writeRemaining_eq b; omega
    have hg : ¬ b.writeRemaining < 2 := by omega
    constructor
    · simp only [ByteBuffer.writeUInt16LE, if_neg hg]
      rw [readUInt16LE_eq _ (by dsimp only; omega)]
      simp only [Option.map_some, ByteBuffer.byteAt, byteMod, ht]
      have h2 := getD_set2 b.data b.head (v % 256) ((v >>> 8) % 256) hb
      rw [h2.1, h2.2]
      simpa using le16_decode v hv
    · simp only [ByteBuffer.writeUInt16BE, if_neg hg]
      rw [readUInt16BE_eq _ (by dsimp only; omega)]
      simp only [Option.map_some, ByteBuffer.byteAt, byteMod, ht]
      have h2 := getD_set2 b.data b.head ((v >>> 8) % 256) (v % 256) hb
      rw [h2.1, h2.2]
      simpa using be16_decode v hv
  · intro h hv
    have hb : b.head + 4 ≤ b.data.length := by
      have := writeRemaining_eq b; omega
    have hg : ¬ b.writeRemaining < 4 := by omega
    constructor
    · simp only [ByteBuffer.writeUInt32LE, if_neg hg]
      rw [readUInt32LE_eq _ (by dsimp only; omega)]
      simp only [Option.map_some, ByteBuffer.byteAt, byteMod, ht]
      have h4 := getD_set4 b.data b.head (v % 256) ((v >>> 8) % 256)
        ((v >>> 16) % 256) ((v >>> 24) % 256) hb
      rw [h4.1, h4.2.1, h4.2.2.1, h4.2.2.2]
      simpa using le32_decode v hv
    · simp only [ByteBuffer.writeUInt32BE, if_neg hg]
      rw [readUInt32BE_eq _ (by dsimp only; omega)]
      simp only [Option.map_some, ByteBuffer.byteAt, byteMod, ht]
      have h4 := getD_set4 b.data b.head ((v >>> 24) % 256) ((v >>> 16) % 256)
        ((v >>> 8) % 256) (v % 256) hb
      rw [h4.1, h4.2.1, h4.2.2.1, h4.2.2.2]
      simpa using be32_decode v hv

/-- C5 witness: the round-trip at a concrete buffer and values. -/
theorem C5_roundtrip_witness :
    (ByteBuffer.mkFresh [0, 0, 0, 0]).tail = (ByteBuffer.mkFresh [0, 0, 0, 0]).head ∧
    (((ByteBuffer.mkFresh [0, 0, 0, 0]).writeUInt32LE 0x11223344).2.readUInt32LE).map
      Prod.fst = some 0x11223344 ∧
    (((ByteBuffer.mkFresh [0, 0, 0, 0]).writeUInt16BE 0xBEEF).2.readUInt16BE).map
      Prod.fst = some 0xBEEF := by
  refine ⟨by decide, ?_, ?_⟩
  · exact ((C5_roundtrip (ByteBuffer.mkFresh [0, 0, 0, 0]) 0x11223344 (by decide)).2.1
      (by decide) (by decide)).1
  · exact ((C5_roundtrip (ByteBuffer.mkFresh [0, 0, 0, 0]) 0xBEEF (by decide)).1
      (by decide) (by decide)).2

/-- C4 witness: the failure branch on a 1-byte buffer and the success
branch on a fresh 4-byte buffer, at concrete inputs. -/
theorem C4_all_or_nothing_writes_witness :
    ((ByteBuffer.mkFresh [7]).writeRemaining < 2 ∧
      (ByteBuffer.mkFresh [7]).writeUInt16LE 0xABCD = (false, ByteBuffer.mkFresh [7])) ∧
    (2 ≤ (ByteBuffer.mkFresh [0, 0, 0, 0]).writeRemaining ∧
      ((ByteBuffer.mkFresh [0, 0, 0, 0]).writeUInt16LE 0xABCD).1 = true ∧
      ((ByteBuffer.mkFresh [0, 0, 0, 0]).writeUInt16LE 0xABCD).2.writePosition =
        (ByteBuffer.mkFresh [0, 0, 0, 0]).writePosition + 2) := by
  refine ⟨⟨by decide, (C4_all_or_nothing_writes (ByteBuffer.mkFresh [7]) 0xABCD).1
    (by decide)⟩, ⟨by decide, ?_, ?_⟩⟩
  · exact ((C4_all_or_nothing_writes (ByteBuffer.mkFresh [0, 0, 0, 0]) 0xABCD).2.2.2.2.1
      (by decide)).1
  · exact ((C4_all_or_nothing_writes (ByteBuffer.mkFresh [0, 0, 0, 0]) 0xABCD).2.2.2.2.1
      (by decide)).2.1

/-- C2: the concrete framing round-trip on an 8-byte array:
`beginMessage(0x42)`, `writeByte(0x11)`, `writeByte(0x22)`,
`finalizeMessage()` yields `size() == 4` and message bytes
`[0x42, 2, 0x11, 0x22]`; then `beginRead(4)` yields
`messageType() == 0x42`, `payloadLength() == 2`, two `readByte` calls
returning `0x11` then `0x22`, and a third `readByte` failing. -/
theorem C2_framing_roundtrip :
    let m0 : MessageBuffer := ⟨List.replicate 8 0, 0, 0⟩
    let m4 := (((m0.beginMessage 0x42).2.writeByte 0x11).2.writeByte 0x22).2.finalizeMessage
    let m5 := (m4.beginRead 4).2
    (m0.beginMessage 0x42).1 = true ∧
    m4.size = 4 ∧ m4.data.take 4 = [0x42, 2, 0x11, 0x22] ∧
    (m4.beginRead 4).1 = true ∧
    m5.messageType = 0x42 ∧ m5.payloadLength = 2 ∧
    m5.readByte.map Prod.fst = some 0x11 ∧
    (m5.readByteN 1).readByte.map Prod.fst = some 0x22 ∧
    (m5.readByteN 2).readByte = none := by
  decide

/-- `finalizeMessage` declares `min(head - 2, 255)` whenever the cursor is
past the header and the header fits the array. -/
theorem finalize_payloadLength (m : MessageBuffer) (hw : headerSize ≤ m.head)
    (hcap : headerSize ≤ m.capacity) (hsz : m.head < sizeTMod) :
    m.finalizeMessage.payloadLength = min (m.head - headerSize) 255 := by
  have hp : (m.head + (sizeTMod - headerSize)) % sizeTMod = m.head - headerSize := by
    simp only [sizeTMod, headerSize] at *
    omega
  simp only [MessageBuffer.finalizeMessage, MessageBuffer.payloadLength,
    MessageBuffer.byteAt, hp]
  rw [getD_set_self _ _ _ ?_]
  · simp only [byteMod]
    split <;> omega
  · unfold MessageBuffer.capacity headerSize at hcap
    omega

/-- `finalizeMessage` only rewrites header byte 1: the message size it
reports is still the write cursor. -/
theorem finalizeMessage_size (m : MessageBuffer) : m.finalizeMessage.size = m.head :=
  rfl

/-- `writeByteN` advances the write cursor one byte per call while room
remains, and touches neither the capacity nor the read cursor. -/
theorem writeByteN_facts (m : MessageBuffer) (v : Nat) :
    ∀ k : Nat, m.head + k ≤ m.capacity →
      (m.writeByteN v k).head = m.head + k ∧
      (m.writeByteN v k).capacity = m.capacity ∧
      (m.writeByteN v k).tail = m.tail := by
  intro k
  induction k with
  | zero => exact fun _ => ⟨rfl, rfl, rfl⟩
  | succ k ih =>
    intro hk
    obtain ⟨hh, hc, htl⟩ := ih (by omega)
    simp only [MessageBuffer.writeByteN, MessageBuffer.writeByte]
    rw [if_neg (by omega)]
    refine ⟨by simp only [hh]; omega, ?_, htl⟩
    unfold MessageBuffer.capacity at hc ⊢
    simp only [List.length_set]
    exact hc

set_option maxRecDepth 4000 in
/-- C3: in any Writing state (write cursor at least the header size,
capacity at least the header size), `finalizeMessage()` stores
`min(writeCursor - 2, 255)` into header byte 1, never signals failure and
changes nothing but that byte (cursors and size are untouched); with 300
payload bytes on a 302-byte array the declared length is exactly 255 while
`size()` still counts all 302 bytes. -/
theorem C3_finalize_clamp (m : MessageBuffer) (hw : headerSize ≤ m.head)
    (hcap : headerSize ≤ m.capacity) (hsz : m.head < sizeTMod) :
    m.finalizeMessage.payloadLength = min (m.head - headerSize) 255 ∧
    m.finalizeMessage.size = m.size ∧
    m.finalizeMessage.head = m.head ∧
    m.finalizeMessage.tail = m.tail ∧
    (((MessageBuffer.mk (List.replicate 302 0) 0 0).beginMessage
        0x07).2.writeByteN 0xAB 300).finalizeMessage.payloadLength = 255 ∧
    (((MessageBuffer.mk (List.replicate 302 0) 0 0).beginMessage
        0x07).2.writeByteN 0xAB 300).finalizeMessage.size = 302 := by
  have hbigH : ((MessageBuffer.mk (List.replicate 302 0) 0 0).beginMessage
      0x07).2.head = 2 := by decide
  have hbigC : ((MessageBuffer.mk (List.replicate 302 0) 0 0).beginMessage
      0x07).2.capacity = 302 := by decide
  obtain ⟨hh, hc, -⟩ := writeByteN_facts
    ((MessageBuffer.mk (List.replicate 302 0) 0 0).beginMessage 0x07).2 0xAB 300
    (by rw [hbigH, hbigC])
  rw [hbigH] at hh
  rw [hbigC] at hc
  have h255 := finalize_payloadLength
    (((MessageBuffer.mk (List.replicate 302 0) 0 0).beginMessage
      0x07).2.writeByteN 0xAB 300)
    (by rw [hh]; decide)
    (by rw [hc]; decide)
    (by rw [hh]; decide)
  refine ⟨finalize_payloadLength m hw hcap hsz, rfl, rfl, rfl, ?_, ?_⟩
  · rw [h255, hh]
    decide
  · rw [finalizeMessage_size, hh]

/-- C3 witness: finalizing a concrete Writing state with one payload byte
declares length 1. -/
theorem C3_finalize_clamp_witness :
    (MessageBuffer.mk [1, 2, 3] 3 0).finalizeMessage.payloadLength = 1 := by
  have h := (C3_finalize_clamp (MessageBuffer.mk [1, 2, 3] 3 0) (by decide)
    (by decide) (by norm_num [sizeTMod])).1
  simpa using h

/-- C7: `beginRead(size)` fails and leaves the state untouched exactly when
`size < 2` or `size > capacity`, and for `2 ≤ size ≤ capacity` succeeds,
setting the write-side cursor to `size` and the read cursor to 2 without
touching the bytes. -/
theorem C7_beginRead_validation (m : MessageBuffer) (sz : Nat) :
    ((sz < headerSize ∨ m.capacity < sz) → m.beginRead sz = (false, m)) ∧
    (headerSize ≤ sz → sz ≤ m.capacity →
      (m.beginRead sz).1 = true ∧ (m.beginRead sz).2.head = sz ∧
      (m.beginRead sz).2.tail = headerSize ∧ (m.beginRead sz).2.data = m.data) := by
  constructor
  · intro h
    unfold MessageBuffer.beginRead
    rw [if_pos (by omega)]
  · intro h1 h2
    unfold MessageBuffer.beginRead
    rw [if_neg (by omega)]
    exact ⟨rfl, rfl, rfl, rfl⟩

/-- C7 witness: both branches at concrete sizes on a 4-byte array. -/
theorem C7_beginRead_validation_witness :
    ((MessageBuffer.mk [0, 0, 0, 0] 0 0).beginRead 1 =
      (false, MessageBuffer.mk [0, 0, 0, 0] 0 0)) ∧
    ((MessageBuffer.mk [0, 0, 0, 0] 0 0).beginRead 5 =
      (false, MessageBuffer.mk [0, 0, 0, 0] 0 0)) ∧
    ((MessageBuffer.mk [0, 0, 0, 0] 0 0).beginRead 3).1 = true ∧
    ((MessageBuffer.mk [0, 0, 0, 0] 0 0).beginRead 3).2.tail = headerSize := by
  refine ⟨(C7_beginRead_validation (MessageBuffer.mk [0, 0, 0, 0] 0 0) 1).1
      (by decide),
    (C7_beginRead_validation (MessageBuffer.mk [0, 0, 0, 0] 0 0) 5).1
      (by decide),
    ((C7_beginRead_validation (MessageBuffer.mk [0, 0, 0, 0] 0 0) 3).2
      (by decide) (by decide)).1,
    ((C7_beginRead_validation (MessageBuffer.mk [0, 0, 0, 0] 0 0) 3).2
      (by decide) (by decide)).2.2.1⟩

/-- State of the reader after `n` `readByte` calls following a successful
`beginRead(sz)`: the read cursor walks to `min (2 + n) sz` and nothing else
moves. -/
theorem readByteN_state (d : List Nat) (sz : Nat) (h1 : headerSize ≤ sz) :
    ∀ n : Nat, MessageBuffer.readByteN ⟨d, sz, headerSize⟩ n =
      ⟨d, sz, min (headerSize + n) sz⟩ := by
  intro n
  induction n with
  | zero =>
    simp only [MessageBuffer.readByteN]
    congr 1
    rw [Nat.add_zero, Nat.min_eq_left h1]
  | succ n ih =>
    simp only [MessageBuffer.readByteN, ih, MessageBuffer.readByte, MessageBuffer.byteAt]
    by_cases hc : headerSize + n < sz
    · rw [Nat.min_eq_left (Nat.le_of_lt hc), Nat.min_eq_left (by omega),
        if_neg (by omega)]
      rfl
    · rw [Nat.min_eq_right (by omega), Nat.min_eq_right (by omega),
        if_pos (le_refl sz)]

/-- C6: after a successful `beginRead(sz)`, `readByte` succeeds (returning
the byte at the read cursor and advancing it) exactly while the cursor is
below the received size `sz`, regardless of the declared `payloadLength()`:
bytes past the declared payload are still returned up to index `sz - 1`,
and at cursor `sz` the call fails. -/
theorem C6_readByte_received_bound (m : MessageBuffer) (sz : Nat)
    (h1 : headerSize ≤ sz) (h2 : sz ≤ m.capacity) (n : Nat) :
    ((m.beginRead sz).2.readByteN n).data = m.data ∧
    ((m.beginRead sz).2.readByteN n).head = sz ∧
    ((m.beginRead sz).2.readByteN n).tail = min (headerSize + n) sz ∧
    (headerSize + n < sz →
      ((m.beginRead sz).2.readByteN n).readByte =
        some (m.byteAt (headerSize + n), (m.beginRead sz).2.readByteN (n + 1))) ∧
    (sz ≤ headerSize + n → ((m.beginRead sz).2.readByteN n).readByte = none) := by
  have hm : (m.beginRead sz).2 = ⟨m.data, sz, headerSize⟩ := by
    unfold MessageBuffer.beginRead
    rw [if_neg (by omega)]
  rw [hm, readByteN_state m.data sz h1 n, readByteN_state m.data sz h1 (n + 1)]
  refine ⟨rfl, rfl, rfl, ?_, ?_⟩
  · intro hlt
    rw [Nat.min_eq_left (Nat.le_of_lt hlt), Nat.min_eq_left (by omega)]
    simp only [MessageBuffer.readByte, MessageBuffer.byteAt]
    rw [if_neg (by omega)]
    rfl
  · intro hge
    rw [Nat.min_eq_right hge]
    simp only [MessageBuffer.readByte]
    rw [if_pos (le_refl sz)]

/-- C6 witness: received size 3 with a declared payload length of 9: the
byte at index 2 is still delivered and the second read fails. -/
theorem C6_readByte_received_bound_witness :
    (((MessageBuffer.mk [9, 9, 5, 6] 0 0).beginRead 3).2.readByteN 0).readByte =
      some ((MessageBuffer.mk [9, 9, 5, 6] 0 0).byteAt 2,
        ((MessageBuffer.mk [9, 9, 5, 6] 0 0).beginRead 3).2.readByteN 1) ∧
    (((MessageBuffer.mk [9, 9, 5, 6] 0 0).beginRead 3).2.readByteN 1).readByte =
      none := by
  constructor
  · have h := (C6_readByte_received_bound (MessageBuffer.mk [9, 9, 5, 6] 0 0) 3
      (by decide) (by decide) 0).2.2.2.1 (by decide)
    simpa using h
  · exact (C6_readByte_received_bound (MessageBuffer.mk [9, 9, 5, 6] 0 0) 3
      (by decide) (by decide) 1).2.2.2.2 (by decide)

/-- C10: `readRemaining()` is computed solely from the declared header
length: it always equals `max 0 ((2 + payloadLength()) - readCursor)` (as
integers), and right after `beginRead(sz)` with `sz < 2 + payloadLength()`
it reports strictly more than the `sz - readCursor` reads that can still
succeed. -/
theorem C10_readRemaining_from_header (m : MessageBuffer) :
    ((m.readRemaining : ℤ) =
      max 0 ((headerSize : ℤ) + (m.payloadLength : ℤ) - (m.tail : ℤ))) ∧
    (∀ sz : Nat, headerSize ≤ sz → sz ≤ m.capacity →
      sz < headerSize + (m.beginRead sz).2.payloadLength →
      (sz : ℤ) - ((m.beginRead sz).2.tail : ℤ) <
        ((m.beginRead sz).2.readRemaining : ℤ)) := by
  have hrr : ∀ mm : MessageBuffer,
      (mm.readRemaining : ℤ) =
        max 0 ((headerSize : ℤ) + (mm.payloadLength : ℤ) - (mm.tail : ℤ)) := by
    intro mm
    simp only [MessageBuffer.readRemaining]
    split <;> omega
  refine ⟨hrr m, ?_⟩
  intro sz h1 h2 h3
  have hm : (m.beginRead sz).2 = ⟨m.data, sz, headerSize⟩ := by
    unfold MessageBuffer.beginRead
    rw [if_neg (by omega)]
  rw [hm] at h3 ⊢
  rw [hrr ⟨m.data, sz, headerSize⟩]
  have hpl : (MessageBuffer.mk m.data sz headerSize).payloadLength = m.payloadLength := rfl
  rw [hpl] at h3 ⊢
  have : (MessageBuffer.mk m.data sz headerSize).tail = headerSize := rfl
  rw [this]
  omega

/-- C10 witness: a 4-byte frame whose header declares 200 payload bytes:
`readRemaining()` reports 200 while only 2 reads can succeed. -/
theorem C10_readRemaining_from_header_witness :
    (4 : ℤ) - (((MessageBuffer.mk [7, 200, 0, 0] 0 0).beginRead 4).2.tail : ℤ) <
      ((((MessageBuffer.mk [7, 200, 0, 0] 0 0).beginRead 4).2.readRemaining : ℤ)) := by
  exact (C10_readRemaining_from_header (MessageBuffer.mk [7, 200, 0, 0] 0 0)).2 4
    (by decide) (by decide) (by decide)



/-- `readUInt8` in explicit form when one byte is available. -/
theorem readUInt8_eq (b : ByteBuffer) (h : b.tail + 1 ≤ b.head) :
    b.readUInt8 = some (b.byteAt b.tail, { b with tail := b.tail + 1 }) := by
  unfold ByteBuffer.readUInt8
  rw [if_neg (by rw [readRemaining_eq]; omega)]

/-- `readUInt8` fails when no byte is available. -/
theorem readUInt8_none (b : ByteBuffer) (h : b.head < b.tail + 1) :
    b.readUInt8 = none := by
  unfold ByteBuffer.readUInt8
  rw [if_pos (by rw [readRemaining_eq]; omega)]

/-- `readUInt16LE` fails when fewer than two bytes are available. -/
theorem readUInt16LE_none (b : ByteBuffer) (h : b.head < b.tail + 2) :
    b.readUInt16LE = none := by
  unfold ByteBuffer.readUInt16LE
  rw [if_pos (by rw [readRemaining_eq]; omega)]

/-- `readUInt16BE` fails when fewer than two bytes are available. -/
theorem readUInt16BE_none (b : ByteBuffer) (h : b.head < b.tail + 2) :
    b.readUInt16BE = none := by
  unfold ByteBuffer.readUInt16BE
  rw [if_pos (by rw [readRemaining_eq]; omega)]

/-- `readUInt32LE` fails when fewer than four bytes are available. -/
theorem readUInt32LE_none (b : ByteBuffer) (h : b.head < b.tail + 4) :
    b.readUInt32LE = none := by
  unfold ByteBuffer.readUInt32LE
  rw [if_pos (by rw [readRemaining_eq]; omega)]

/-- `readUInt32BE` fails when fewer than four bytes are available. -/
theorem readUInt32BE_none (b : ByteBuffer) (h : b.head < b.tail + 4) :
    b.readUInt32BE = none := by
  unfold ByteBuffer.readUInt32BE
  rw [if_pos (by rw [readRemaining_eq]; omega)]

/-- Every public call keeps both cursors within the array bounds and never
changes the array length. -/
theorem step_bounds (o : BBOp) (b : ByteBuffer)
    (h1 : b.head ≤ b.data.length) (h2 : b.tail ≤ b.data.length) :
    (o.step b).head ≤ (o.step b).data.length ∧
    (o.step b).tail ≤ (o.step b).data.length ∧
    (o.step b).data.length = b.data.length := by
  cases o with
  | opResetWrite => exact ⟨Nat.zero_le _, h2, rfl⟩
  | opResetRead => exact ⟨h1, Nat.zero_le _, rfl⟩
  | opReadU8 =>
    rcases Nat.lt_or_ge b.head (b.tail + 1) with hc | hc
    · simp only [BBOp.step, readUInt8_none b hc]
      exact ⟨h1, h2, trivial⟩
    · simp only [BBOp.step, readUInt8_eq b hc]
      exact ⟨h1, by omega, trivial⟩
  | opReadU16LE =>
    rcases Nat.lt_or_ge b.head (b.tail + 2) with hc | hc
    · simp only [BBOp.step, readUInt16LE_none b hc]
      exact ⟨h1, h2, trivial⟩
    · simp only [BBOp.step, readUInt16LE_eq b hc]
      exact ⟨h1, by omega, trivial⟩
  | opReadU16BE =>
    rcases Nat.lt_or_ge b.head (b.tail + 2) with hc | hc
    · simp only [BBOp.step, readUInt16BE_none b hc]
      exact ⟨h1, h2, trivial⟩
    · simp only [BBOp.step, readUInt16BE_eq b hc]
      exact ⟨h1, by omega, trivial⟩
  | opReadU32LE =>
    rcases Nat.lt_or_ge b.head (b.tail + 4) with hc | hc
    · simp only [BBOp.step, readUInt32LE_none b hc]
      exact ⟨h1, h2, trivial⟩
    · simp only [BBOp.step, readUInt32LE_eq b hc]
      exact ⟨h1, by omega, trivial⟩
  | opReadU32BE =>
    rcases Nat.lt_or_ge b.head (b.tail + 4) with hc | hc
    · simp only [BBOp.step, readUInt32BE_none b hc]
      exact ⟨h1, h2, trivial⟩
    · simp only [BBOp.step, readUInt32BE_eq b hc]
      exact ⟨h1, by omega, trivial⟩
  | opWriteU8 v =>
    simp only [BBOp.step, ByteBuffer.writeUInt8]
    rw [writeRemaining_eq]
    split
    · exact ⟨h1, h2, rfl⟩
    · refine ⟨?_, ?_, ?_⟩ <;> simp only [List.length_set] <;> omega
  | opWriteU16LE v =>
    simp only [BBOp.step, ByteBuffer.writeUInt16LE]
    rw [writeRemaining_eq]
    split
    · exact ⟨h1, h2, rfl⟩
    · refine ⟨?_, ?_, ?_⟩ <;> simp only [List.length_set] <;> omega
  | opWriteU16BE v =>
    simp only [BBOp.step, ByteBuffer.writeUInt16BE]
    rw [writeRemaining_eq]
    split
    · exact ⟨h1, h2, rfl⟩
    · refine ⟨?_, ?_, ?_⟩ <;> simp only [List.length_set] <;> omega
  | opWriteU32LE v =>
    simp only [BBOp.step, ByteBuffer.writeUInt32LE]
    rw [writeRemaining_eq]
    split
    · exact ⟨h1, h2, rfl⟩
    · refine ⟨?_, ?_, ?_⟩ <;> simp only [List.length_set] <;> omega
  | opWriteU32BE v =>
    simp only [BBOp.step, ByteBuffer.writeUInt32BE]
    rw [writeRemaining_eq]
    split
    · exact ⟨h1, h2, rfl⟩
    · refine ⟨?_, ?_, ?_⟩ <;> simp only [List.length_set] <;> omega

/-- Bounds are preserved along any call sequence. -/
theorem runOps_bounds (ops : List BBOp) : ∀ b : ByteBuffer,
    b.head ≤ b.data.length → b.tail ≤ b.data.length →
    (runOps b ops).head ≤ (runOps b ops).data.length ∧
    (runOps b ops).tail ≤ (runOps b ops).data.length ∧
    (runOps b ops).data.length = b.data.length := by
  induction ops with
  | nil => exact fun b h1 h2 => ⟨h1, h2, rfl⟩
  | cons o ops ih =>
    intro b h1 h2
    have hs := step_bounds o b h1 h2
    have hr := ih (o.step b) hs.1 hs.2.1
    simp only [runOps, List.foldl_cons] at hr ⊢
    exact ⟨hr.1, hr.2.1, by rw [hr.2.2, hs.2.2]⟩

/-- C1 counterexample: on a 1-byte buffer, write a byte, read it back, then
call `resetWrite()`: the read position is 1 while the write position is 0,
so the claimed invariant `readPosition() ≤ writePosition()` fails. -/
theorem C1_counterexample :
    (runOps (ByteBuffer.mkFresh [0])
        [BBOp.opWriteU8 5, BBOp.opReadU8, BBOp.opResetWrite]).readPosition = 1 ∧
    (runOps (ByteBuffer.mkFresh [0])
        [BBOp.opWriteU8 5, BBOp.opReadU8, BBOp.opResetWrite]).writePosition = 0 ∧
    ¬ ((runOps (ByteBuffer.mkFresh [0])
          [BBOp.opWriteU8 5, BBOp.opReadU8, BBOp.opResetWrite]).readPosition ≤
        (runOps (ByteBuffer.mkFresh [0])
          [BBOp.opWriteU8 5, BBOp.opReadU8, BBOp.opResetWrite]).writePosition) := by
  decide

/-- C1 (amended): after every call sequence from a fresh buffer both
cursors stay within `capacity()`; every operation other than `resetWrite()`
preserves `readPosition() ≤ writePosition()`; `resetWrite()` zeroes the
write cursor and leaves the read cursor unchanged, so the full invariant
can fail only right after a `resetWrite()` issued while `readPosition()`
was nonzero. -/
theorem C1_cursor_invariant_amended :
    (∀ (d : List Nat) (ops : List BBOp),
      (runOps (ByteBuffer.mkFresh d) ops).readPosition ≤
          (runOps (ByteBuffer.mkFresh d) ops).capacity ∧
      (runOps (ByteBuffer.mkFresh d) ops).writePosition ≤
          (runOps (ByteBuffer.mkFresh d) ops).capacity) ∧
    (∀ (o : BBOp) (b : ByteBuffer), o ≠ BBOp.opResetWrite →
      b.readPosition ≤ b.writePosition →
      (o.step b).readPosition ≤ (o.step b).writePosition) ∧
    (∀ b : ByteBuffer, (BBOp.opResetWrite.step b).readPosition = b.readPosition ∧
      (BBOp.opResetWrite.step b).writePosition = 0) := by
  refine ⟨?_, ?_, fun b => ⟨rfl, rfl⟩⟩
  · intro d ops
    have h := runOps_bounds ops (ByteBuffer.mkFresh d) (Nat.zero_le _) (Nat.zero_le _)
    exact ⟨h.2.1, h.1⟩
  · intro o b hne h
    have h' : b.tail ≤ b.head := h
    cases o with
    | opResetWrite => exact absurd rfl hne
    | opResetRead => exact Nat.zero_le _
    | opReadU8 =>
      rcases Nat.lt_or_ge b.head (b.tail + 1) with hc | hc
      · simp only [BBOp.step, readUInt8_none b hc]
        exact h
      · simp only [BBOp.step, readUInt8_eq b hc, ByteBuffer.readPosition,
          ByteBuffer.writePosition]
        omega
    | opReadU16LE =>
      rcases Nat.lt_or_ge b.head (b.tail + 2) with hc | hc
      · simp only [BBOp.step, readUInt16LE_none b hc]
        exact h
      · simp only [BBOp.step, readUInt16LE_eq b hc, ByteBuffer.readPosition,
          ByteBuffer.writePosition]
        omega
    | opReadU16BE =>
      rcases Nat.lt_or_ge b.head (b.tail + 2) with hc | hc
      · simp only [BBOp.step, readUInt16BE_none b hc]
        exact h
      · simp only [BBOp.step, readUInt16BE_eq b hc, ByteBuffer.readPosition,
          ByteBuffer.writePosition]
        omega
    | opReadU32LE =>
      rcases Nat.lt_or_ge b.head (b.tail + 4) with hc | hc
      · simp only [BBOp.step, readUInt32LE_none b hc]
        exact h
      · simp only [BBOp.step, readUInt32LE_eq b hc, ByteBuffer.readPosition,
          ByteBuffer.writePosition]
        omega
    | opReadU32BE =>
      rcases Nat.lt_or_ge b.head (b.tail + 4) with hc | hc
      · simp only [BBOp.step, readUInt32BE_none b hc]
        exact h
      · simp only [BBOp.step, readUInt32BE_eq b hc, ByteBuffer.readPosition,
          ByteBuffer.writePosition]
        omega
    | opWriteU8 v =>
      simp only [BBOp.step, ByteBuffer.writeUInt8]
      split <;> simp only [ByteBuffer.readPosition, ByteBuffer.writePosition] <;> omega
    | opWriteU16LE v =>
      simp only [BBOp.step, ByteBuffer.writeUInt16LE]
      split <;> simp only [ByteBuffer.readPosition, ByteBuffer.writePosition] <;> omega
    | opWriteU16BE v =>
      simp only [BBOp.step, ByteBuffer.writeUInt16BE]
      split <;> simp only [ByteBuffer.readPosition, ByteBuffer.writePosition] <;> omega
    | opWriteU32LE v =>
      simp only [BBOp.step, ByteBuffer.writeUInt32LE]
      split <;> simp only [ByteBuffer.readPosition, ByteBuffer.writePosition] <;> omega
    | opWriteU32BE v =>
      simp only [BBOp.step, ByteBuffer.writeUInt32BE]
      split <;> simp only [ByteBuffer.readPosition, ByteBuffer.writePosition] <;> omega

/-- C1 witness: the amended statement applied at a concrete buffer, call
sequence and single operation, with its hypotheses discharged there. -/
theorem C1_cursor_invariant_amended_witness :
    ((runOps (ByteBuffer.mkFresh [3, 4]) [BBOp.opWriteU8 9]).readPosition ≤
        (runOps (ByteBuffer.mkFresh [3, 4]) [BBOp.opWriteU8 9]).capacity ∧
      (runOps (ByteBuffer.mkFresh [3, 4]) [BBOp.opWriteU8 9]).writePosition ≤
        (runOps (ByteBuffer.mkFresh [3, 4]) [BBOp.opWriteU8 9]).capacity) ∧
    (BBOp.opReadU8.step (ByteBuffer.mkFresh [7])).readPosition ≤
      (BBOp.opReadU8.step (ByteBuffer.mkFresh [7])).writePosition := by
  exact ⟨C1_cursor_invariant_amended.1 [3, 4] [BBOp.opWriteU8 9],
    C1_cursor_invariant_amended.2.1 BBOp.opReadU8 (ByteBuffer.mkFresh [7])
      (by decide) (by decide)⟩



/-- Reading a just-set cell, for an arbitrary element type. -/
theorem getDd_set_self {α : Type} (l : List α) (i : Nat) (a d : α)
    (h : i < l.length) : (l.set i a).getD i d = a := by
  simp [List.getD_eq_getElem?_getD, List.getElem?_set_self (by simpa using h)]

/-- Reading a different cell after a set, for an arbitrary element type. -/
theorem getDd_set_ne {α : Type} (l : List α) (i j : Nat) (a d : α)
    (h : i ≠ j) : (l.set i a).getD j d = l.getD j d := by
  simp [List.getD_eq_getElem?_getD, List.getElem?_set_ne h]

/-- Cancellation for slot indices: congruent offsets below the modulus are
equal. -/
theorem slot_cancel {N t i c : Nat} (hi : i < N) (hc : c < N)
    (h : (t + i) % N = (t + c) % N) : i = c := by
  have hm : i % N = c % N := Nat.ModEq.add_left_cancel' t h
  rwa [Nat.mod_eq_of_lt hi, Nat.mod_eq_of_lt hc] at hm

/-- The abstract content of a nonempty queue, split into its oldest element
and the remainder. -/
theorem toList_head_tail {α : Type} [Inhabited α] {N : Nat} (r : RingBuffer α N)
    (htl : r.tail < N) (hpos : 0 < r.count) :
    r.toList = r.buf.getD r.tail default ::
      (List.range (r.count - 1)).map
        (fun i => r.buf.getD ((r.tail + 1 + i) % N) default) := by
  obtain ⟨c, hc⟩ : ∃ c, r.count = c + 1 := ⟨r.count - 1, by omega⟩
  simp only [RingBuffer.toList, hc, List.range_succ_eq_map, List.map_cons,
    List.map_map, Nat.add_zero, Nat.mod_eq_of_lt htl, Nat.add_sub_cancel]
  congr 1
  apply List.map_congr_left
  intro i _
  have e : r.tail + (i + 1) = r.tail + 1 + i := by omega
  simp only [Function.comp, Nat.succ_eq_add_one, e]

/-- `push` on a non-full well-formed queue: succeeds and appends to the
abstract FIFO content. -/
theorem push_toList {α : Type} [Inhabited α] {N : Nat} (r : RingBuffer α N)
    (hwf : r.WF) (v : α) (hlt : r.count < N) :
    (r.push v).1 = true ∧ (r.push v).2.WF ∧
    (r.push v).2.toList = r.toList ++ [v] := by
  obtain ⟨hbuf, hcnt, htl, hhd⟩ := hwf
  have hN : 0 < N := by omega
  simp only [RingBuffer.push, if_neg (by omega : ¬ r.count = N)]
  refine ⟨trivial, ⟨?_, ?_, ?_, ?_⟩, ?_⟩
  · show (r.buf.set r.head v).length = N
    simpa using hbuf
  · show r.count + 1 ≤ N
    omega
  · show r.tail < N
    exact htl
  · show (r.head + 1) % N = (r.tail + (r.count + 1)) % N
    rw [hhd, Nat.mod_add_mod, ← Nat.add_assoc]
  · show (List.range (r.count + 1)).map
        (fun i => (r.buf.set r.head v).getD ((r.tail + i) % N) default) =
      r.toList ++ [v]
    rw [List.range_succ, List.map_append, List.map_singleton]
    congr 1
    · apply List.map_congr_left
      intro i hi
      have hiN : i < r.count := List.mem_range.mp hi
      apply getDd_set_ne
      rw [hhd]
      intro heq
      have := slot_cancel (show r.count < N by omega) (show i < N by omega) heq
      omega
    · rw [← hhd]
      exact congrArg (fun x => [x])
        (getDd_set_self _ _ _ _ (by rw [hbuf, hhd]; exact Nat.mod_lt _ hN))

/-- `pop` on a nonempty well-formed queue: succeeds, delivers the oldest
element and drops it from the abstract FIFO content. -/
theorem pop_toList {α : Type} [Inhabited α] {N : Nat} (r : RingBuffer α N)
    (hwf : r.WF) (hpos : 0 < r.count) :
    ∃ s : RingBuffer α N, r.pop = some (r.toList.headD default, s) ∧ s.WF ∧
      s.toList = r.toList.tail := by
  obtain ⟨hbuf, hcnt, htl, hhd⟩ := hwf
  have hN : 0 < N := by omega
  have hht := toList_head_tail r htl hpos
  refine ⟨⟨r.buf, r.head, (r.tail + 1) % N, r.count - 1⟩, ?_, ?_, ?_⟩
  · simp only [RingBuffer.pop, if_neg (by omega : ¬ r.count = 0), hht,
      List.headD_cons]
  · refine ⟨hbuf, ?_, Nat.mod_lt _ hN, ?_⟩
    · show r.count - 1 ≤ N
      omega
    show r.head = ((r.tail + 1) % N + (r.count - 1)) % N
    rw [hhd, Nat.mod_add_mod]
    congr 1
    omega
  · rw [hht]
    simp only [RingBuffer.toList, List.tail_cons]
    apply List.map_congr_left
    intro i _
    rw [Nat.mod_add_mod]

/-- C9: for well-formed ring-buffer states, `push` succeeds (appending to
the FIFO content) exactly when `count < N` and otherwise fails without
mutation; `pop` succeeds (removing the oldest element) exactly when
`count > 0` and otherwise fails; and the capacity-3 wrap-around scenario
push 1,2,3 / pop 1 / push 4 / pop 2,3,4 / empty runs as specified. -/
theorem C9_ring_fifo {α : Type} [Inhabited α] {N : Nat}
    (r : RingBuffer α N) (v : α) (hwf : r.WF) :
    (r.count < N → (r.push v).1 = true ∧ (r.push v).2.WF ∧
      (r.push v).2.toList = r.toList ++ [v]) ∧
    (r.count = N → r.push v = (false, r)) ∧
    (0 < r.count → ∃ s : RingBuffer α N,
      r.pop = some (r.toList.headD default, s) ∧ s.WF ∧
      s.toList = r.toList.tail) ∧
    (r.count = 0 → r.pop = none) ∧
    (let r0 : RingBuffer Nat 3 := ⟨[0, 0, 0], 0, 0, 0⟩
     let r3 := (((r0.push 1).2.push 2).2.push 3).2
     let r4 := ((RingBuffer.popS r3).push 4).2
     (r0.push 1).1 = true ∧ ((r0.push 1).2.push 2).1 = true ∧
     (((r0.push 1).2.push 2).2.push 3).1 = true ∧
     r3.isFull = true ∧ (r3.push 9).1 = false ∧
     RingBuffer.popV r3 = some 1 ∧
     ((RingBuffer.popS r3).push 4).1 = true ∧
     RingBuffer.popV r4 = some 2 ∧
     RingBuffer.popV (RingBuffer.popS r4) = some 3 ∧
     RingBuffer.popV (RingBuffer.popS (RingBuffer.popS r4)) = some 4 ∧
     (RingBuffer.popS (RingBuffer.popS (RingBuffer.popS r4))).isEmpty = true) := by
  refine ⟨fun hlt => push_toList r hwf v hlt, ?_, fun hpos => pop_toList r hwf hpos,
    ?_, by decide⟩
  · intro hfull
    simp only [RingBuffer.push, if_pos hfull]
  · intro hzero
    simp only [RingBuffer.pop, if_pos hzero]

/-- C9 witness: the theorem applied to a concrete well-formed two-slot
queue, with every hypothesis discharged there. -/
theorem C9_ring_fifo_witness :
    ((⟨[0, 0], 0, 0, 0⟩ : RingBuffer Nat 2).push 7).1 = true ∧
    ((⟨[0, 0], 0, 0, 0⟩ : RingBuffer Nat 2).push 7).2.toList =
      (⟨[0, 0], 0, 0, 0⟩ : RingBuffer Nat 2).toList ++ [7] ∧
    (⟨[5, 6], 0, 0, 0⟩ : RingBuffer Nat 2).pop = none := by
  have h := (C9_ring_fifo (⟨[0, 0], 0, 0, 0⟩ : RingBuffer Nat 2) 7
    (by unfold RingBuffer.WF; decide)).1 (by decide)
  have h0 := (C9_ring_fifo (⟨[5, 6], 0, 0, 0⟩ : RingBuffer Nat 2) 7
    (by unfold RingBuffer.WF; decide)).2.2.2.1 (by decide)
  exact ⟨h.1, h.2.2, h0⟩


end AntBuffer
